import Mathlib

/-!
# sploov/uptime: monitoring engine, status cache and event log

A shallow embedding of the Go packages `internal/models`, `internal/config`,
`internal/storage` and `internal/monitor`, followed by the properties proved
about them.

Modelling conventions

* `time.Duration` is an integer number of nanoseconds, `time.Time` an instant
  with nanosecond resolution (nanoseconds since the Unix epoch); the location
  and the monotonic clock reading of a Go `time.Time` are not represented.
* `float64` results (`Service.Latency`, `GetUptime`, `GetAverageLatency`) are
  exact rationals: rounding of IEEE doubles is not represented.
* The SQLite table `checks` is the list of its rows in insertion order; each
  SQL statement of `sqlite.go` is the list function with the same meaning.
  Database failures are not represented, so every query returns a nil error.
* The network probe of `Monitor.check` is an input (`ProbeOutcome`); the
  goroutine started for `Notify` is recorded as an entry of `Monitor.notified`.
-/

namespace Uptime

/-! ## package time -/

/-- Go `time.Duration`: a signed count of nanoseconds. -/
abbrev Duration := Int

/-- Go `time.Millisecond`. -/
def Millisecond : Duration := 1000000

/-- Go `time.Second`. -/
def Second : Duration := 1000000000

/-- Go `time.Hour`. -/
def Hour : Duration := 3600 * Second

/-- Go `Duration.Nanoseconds`. -/
def Duration.Nanoseconds (d : Duration) : Int := d

/-- Go `Duration.Milliseconds`: integer division truncating toward zero. -/
def Duration.Milliseconds (d : Duration) : Int := Int.tdiv d 1000000

/-- Go `time.Time`, as an instant: nanoseconds since the Unix epoch. -/
structure Time where
  unixNano : Int
deriving DecidableEq, Repr

/-- Go `Time.Unix`: whole seconds since the epoch (the nanosecond part of a Go
time is never negative, so this is the floor). -/
def Time.Unix (t : Time) : Int := t.unixNano / 1000000000

/-- Go `time.Unix(sec, nsec)`. -/
def Unix (sec nsec : Int) : Time := ⟨sec * 1000000000 + nsec⟩

/-- Go `Time.Add`. -/
def Time.Add (t : Time) (d : Duration) : Time := ⟨t.unixNano + d⟩

/-- Go `Time.Before`. -/
def Time.Before (t u : Time) : Prop := t.unixNano < u.unixNano

instance (t u : Time) : Decidable (t.Before u) := by
  unfold Time.Before; exact inferInstance

/-! ## package models -/

/-- Go `type ServiceStatus string`. -/
abbrev ServiceStatus := String

def StatusOperational : ServiceStatus := "operational"
def StatusDegraded : ServiceStatus := "degraded"
def StatusOutage : ServiceStatus := "outage"

/-- Go `type HeartbeatValue int`. -/
abbrev HeartbeatValue := Int

def HeartbeatUp : HeartbeatValue := 0
def HeartbeatDegraded : HeartbeatValue := 1
def HeartbeatDown : HeartbeatValue := 2

/-- A target to monitor, from the configuration. -/
structure ServiceConfig where
  ID : String
  Name : String
  URL : String
  Interval : Duration
  Timeout : Duration
  Method : String
deriving DecidableEq, Repr

/-- The result of a single poll. -/
structure CheckResult where
  ServiceID : String
  Timestamp : Time
  Latency : Duration
  Status : HeartbeatValue
  Error : String
deriving DecidableEq, Repr

/-- The API response record, also the entry of the status cache. -/
structure Service where
  ID : String
  Name : String
  Uptime : String
  Status : ServiceStatus
  Latency : Rat
  Heartbeats : List Int
deriving DecidableEq, Repr

/-! ## package config -/

structure DiscordConfig where
  Enabled : Bool
  WebhookURL : String
deriving DecidableEq, Repr

structure Config where
  Targets : List ServiceConfig
  Discord : DiscordConfig
deriving DecidableEq, Repr

/-- The body of the defaulting loop of `LoadConfig`, for one target. -/
def setDefaults (t : ServiceConfig) : ServiceConfig :=
  let t := if t.Interval = 0 then { t with Interval := 30 * Second } else t
  let t := if t.Timeout = 0 then { t with Timeout := 5 * Second } else t
  let t := if t.Method = "" then { t with Method := "HTTP" } else t
  t

/-- Go `LoadConfig`, from the decoded YAML document on: the defaulting loop
over `cfg.Targets`. Opening and decoding the file are not represented. -/
def LoadConfig (decoded : Config) : Config :=
  { decoded with Targets := decoded.Targets.map setDefaults }

/-! ## package storage -/

/-- One row of the table `checks`. The column `error` is nullable. -/
structure Row where
  id : Int
  service_id : String
  timestamp : Int
  latency_ns : Int
  status : Int
  error : Option String
deriving DecidableEq, Repr

/-- The database behind Go `Store`: the rows of `checks`, oldest insert first. -/
structure Store where
  checks : List Row
deriving DecidableEq, Repr

/-- The row `AddCheck` inserts for `r` when the table holds `n` rows: the
timestamp is `r.Timestamp.Unix()`, the key the next AUTOINCREMENT value. -/
def rowOf (n : Nat) (r : CheckResult) : Row :=
  { id := (n : Int) + 1
    service_id := r.ServiceID
    timestamp := r.Timestamp.Unix
    latency_ns := Duration.Nanoseconds r.Latency
    status := r.Status
    error := some r.Error }

/-- Go `Store.AddCheck`: `INSERT INTO checks (...) VALUES (?, ?, ?, ?, ?)`. -/
def Store.AddCheck (s : Store) (r : CheckResult) : Store × Option String :=
  ({ checks := s.checks ++ [rowOf s.checks.length r] }, none)

/-- `ORDER BY timestamp DESC`: `a` is delivered no later than `b`. Rows with
equal timestamps come newest insert first, the order in which SQLite walks
the index `idx_checks_service_ts` backwards. -/
def recentFirst (a b : Row) : Prop :=
  b.timestamp < a.timestamp ∨ (b.timestamp = a.timestamp ∧ b.id ≤ a.id)

instance : DecidableRel recentFirst := fun a b => by
  unfold recentFirst; exact inferInstance

/-- SQLite `LIMIT n`: the first `n` rows; a negative `n` places no upper
bound on the number of rows. -/
def sqlLimit {α : Type} (n : Int) (l : List α) : List α :=
  if n < 0 then l else l.take n.toNat

/-- The rows delivered by the query of `GetRecentChecks`:
`WHERE service_id = ? ORDER BY timestamp DESC LIMIT ?`. -/
def recentRows (s : Store) (serviceID : String) (limit : Int) : List Row :=
  sqlLimit limit
    (List.insertionSort recentFirst (s.checks.filter (fun r => r.service_id = serviceID)))

/-- The `rows.Scan` step and the struct literal of `GetRecentChecks`: a NULL
`error` scans to the empty string. -/
def scanRow (serviceID : String) (r : Row) : CheckResult :=
  { ServiceID := serviceID
    Timestamp := Unix r.timestamp 0
    Latency := r.latency_ns
    Status := r.status
    Error := r.error.getD "" }

/-- Go `Store.GetRecentChecks`: the scanned rows of the descending query,
reversed. -/
def Store.GetRecentChecks (s : Store) (serviceID : String) (limit : Int) :
    List CheckResult × Option String :=
  (((recentRows s serviceID limit).map (scanRow serviceID)).reverse, none)

/-- The rows selected by `WHERE service_id = ? AND timestamp >= ?` with the
second parameter bound to `since.Unix()`. -/
def rowsSince (s : Store) (serviceID : String) (since : Time) : List Row :=
  s.checks.filter (fun r => r.service_id = serviceID ∧ since.Unix ≤ r.timestamp)

/-- Go `Store.GetUptime`. -/
def Store.GetUptime (s : Store) (serviceID : String) (since : Time) :
    Rat × Option String :=
  let up : Nat := (rowsSince s serviceID since).countP (fun r => r.status ≠ 2)
  let total : Nat := (rowsSince s serviceID since).length
  if total = 0 then (0, none)
  else ((up : Rat) / (total : Rat) * 100, none)

/-- SQL `AVG` over an integer column: NULL on no rows, else sum over count. -/
def sqlAvg (xs : List Int) : Option Rat :=
  if xs = [] then none else some (((List.sum xs : Int) : Rat) / (xs.length : Rat))

/-- Go `Store.GetAverageLatency`. -/
def Store.GetAverageLatency (s : Store) (serviceID : String) (since : Time) :
    Rat × Option String :=
  let avg := sqlAvg
    (((rowsSince s serviceID since).filter (fun r => r.status ≠ 2)).map (fun r => r.latency_ns))
  match avg with
  | none => (0, none)
  | some a => (a / (Millisecond : Rat), none)

/-! ## package monitor -/

/-- One invocation of `notifier.Notify` with its five arguments. -/
structure Notification where
  serviceName : String
  url : String
  oldStatus : ServiceStatus
  newStatus : ServiceStatus
  latency : Duration
deriving DecidableEq, Repr

/-- Go `map[string]*models.Service`: lookup. -/
def mapGet (m : List (String × Service)) (k : String) : Option Service :=
  match m with
  | [] => none
  | (k1, v) :: rest => if k1 = k then some v else mapGet rest k

/-- Go `map[string]*models.Service`: assignment `m[k] = v`. -/
def mapSet (m : List (String × Service)) (k : String) (v : Service) :
    List (String × Service) :=
  match m with
  | [] => [(k, v)]
  | (k1, v1) :: rest => if k1 = k then (k1, v) :: rest else (k1, v1) :: mapSet rest k v

/-- Go `Monitor`, with the notifier replaced by the list of its invocations,
oldest first. -/
structure Monitor where
  cfg : Config
  store : Store
  current : List (String × Service)
  notified : List Notification
deriving DecidableEq, Repr

/-- Go `NewMonitor`: every configured target gets a cache record with status
operational. -/
def NewMonitor (cfg : Config) (store : Store) : Monitor :=
  { cfg := cfg
    store := store
    current := cfg.Targets.foldl
      (fun cur t => mapSet cur t.ID
        { ID := t.ID, Name := t.Name, Uptime := "", Status := StatusOperational,
          Latency := 0, Heartbeats := [] })
      []
    notified := [] }

/-- What one probe of `Monitor.check` observed: `start`, the error returned by
`checkHTTP` or `checkTCP` (`none` for nil, else its message), and
`time.Since(start)`. -/
structure ProbeOutcome where
  start : Time
  err : Option String
  latency : Duration
deriving DecidableEq, Repr

/-- The heartbeat classification of `Monitor.check`. -/
def heartbeatOf (target : ServiceConfig) (p : ProbeOutcome) : HeartbeatValue :=
  if p.err ≠ none then HeartbeatDown
  else if p.latency > Int.tdiv target.Timeout 2 then HeartbeatDegraded
  else HeartbeatUp

/-- The coarse status `srvStatus` of `Monitor.check`. -/
def srvStatusOf (status : HeartbeatValue) : ServiceStatus :=
  if status = HeartbeatDown then StatusOutage
  else if status = HeartbeatDegraded then StatusDegraded
  else StatusOperational

/-- The value `checkResult` of `Monitor.check`. -/
def checkResultOf (target : ServiceConfig) (p : ProbeOutcome) : CheckResult :=
  { ServiceID := target.ID
    Timestamp := p.start
    Latency := p.latency
    Status := heartbeatOf target p
    Error := match p.err with
      | some e => e
      | none => "" }

/-- The record `check` works on: the cached one, or a fresh zero-valued one. -/
def cachedOrNew (m : Monitor) (target : ServiceConfig) : Service :=
  match mapGet m.current target.ID with
  | some c => c
  | none => { ID := target.ID, Name := target.Name, Uptime := "", Status := "",
              Latency := 0, Heartbeats := [] }

/-- Go `Monitor.check`, after the probe returned `p`. -/
def Monitor.check (m : Monitor) (target : ServiceConfig) (p : ProbeOutcome) : Monitor :=
  let status := heartbeatOf target p
  let srvStatus := srvStatusOf status
  let store := (m.store.AddCheck (checkResultOf target p)).1
  let cached := cachedOrNew m target
  let oldStatus := cached.Status
  let cached := { cached with Status := srvStatus,
                              Latency := ((Duration.Milliseconds p.latency : Int) : Rat) }
  { cfg := m.cfg
    store := store
    current := mapSet m.current target.ID cached
    notified :=
      if oldStatus ≠ srvStatus then
        m.notified ++ [⟨target.Name, target.URL, oldStatus, srvStatus, p.latency⟩]
      else m.notified }

/-- Several checks of one target, completed one after another. -/
def Monitor.checks (m : Monitor) (target : ServiceConfig) (ps : List ProbeOutcome) :
    Monitor :=
  ps.foldl (fun m p => m.check target p) m

/-- Go `Monitor.GetServices`: a copy of every cached record, with `Uptime`
and `Heartbeats` filled from the store. `now` is `time.Now()`, `fmt` the
formatting `fmt.Sprintf("%.2f%%", uptime)`. -/
def Monitor.GetServices (m : Monitor) (now : Time) (fmt : Rat → String) : List Service :=
  m.current.map fun kv =>
    let svc := kv.2
    let uptime := (m.store.GetUptime svc.ID (now.Add (-24 * Hour))).1
    let checks := (m.store.GetRecentChecks svc.ID 20).1
    { svc with Uptime := fmt uptime, Heartbeats := checks.map (fun c => c.Status) }

/-- Go `Monitor.GetServiceHistory`. -/
def Monitor.GetServiceHistory (m : Monitor) (id : String) : List CheckResult × Option String :=
  m.store.GetRecentChecks id 100


/-- The events of a run: targets with the outcome of their probe, in the
order in which the checks completed. -/
def Monitor.run (m : Monitor) (steps : List (ServiceConfig × ProbeOutcome)) : Monitor :=
  steps.foldl (fun m s => m.check s.1 s.2) m

/-- The cache is keyed by record identity, one record per key. -/
def CacheOk (cur : List (String × Service)) : Prop :=
  (cur.map Prod.fst).Nodup ∧ ∀ kv ∈ cur, kv.2.ID = kv.1

/-- The coarse status one check of `t` arrives at. -/
def tickStatus (t : ServiceConfig) (p : ProbeOutcome) : ServiceStatus :=
  srvStatusOf (heartbeatOf t p)

/-- The notifications a sequence of checks of `t` owes when `prev` is the
status cached before the first of them: one for each check whose status
differs from the status cached before it, with that pair of statuses and the
latency of that check. -/
def transitions (t : ServiceConfig) (prev : ServiceStatus) :
    List ProbeOutcome → List Notification
  | [] => []
  | p :: ps =>
    (if prev ≠ tickStatus t p then [⟨t.Name, t.URL, prev, tickStatus t p, p.latency⟩] else [])
      ++ transitions t (tickStatus t p) ps

/-- The rows `AddCheck` inserts for a list of events, the table holding `n`
rows before the first insert. -/
def rowsFrom (n : Nat) : List CheckResult → List Row
  | [] => []
  | e :: es => rowOf n e :: rowsFrom (n + 1) es

/-- The store after appending `events`, in order, to an empty table. -/
def Store.ofEvents (events : List CheckResult) : Store :=
  events.foldl (fun s e => (s.AddCheck e).1) ⟨[]⟩

/-- An event of `target` at or after the instant `since`. -/
def atOrAfter (target : String) (since : Time) (e : CheckResult) : Prop :=
  e.ServiceID = target ∧ ¬ e.Timestamp.Before since

instance (target : String) (since : Time) (e : CheckResult) :
    Decidable (atOrAfter target since e) := by
  unfold atOrAfter; exact inferInstance

/-- An event of `target` whose timestamp, cut to whole Unix seconds, is at or
after `since` cut to whole Unix seconds. -/
def atOrAfterSec (target : String) (since : Time) (e : CheckResult) : Prop :=
  e.ServiceID = target ∧ since.Unix ≤ e.Timestamp.Unix

instance (target : String) (since : Time) (e : CheckResult) :
    Decidable (atOrAfterSec target since e) := by
  unfold atOrAfterSec; exact inferInstance

/-- Arithmetic mean of a list of rationals (0 for the empty list). -/
def mean (xs : List Rat) : Rat := xs.sum / (xs.length : Rat)

/-- Any two rows are ordered by `recentFirst` one way or the other. -/
instance : IsTotal Row recentFirst :=
  ⟨fun a b => by unfold recentFirst; omega⟩

/-- The order `recentFirst` is transitive. -/
instance : IsTrans Row recentFirst :=
  ⟨fun a b c => by unfold recentFirst; omega⟩

/-! ## Lemmas on the cache map -/

theorem mapGet_mapSet_same (m : List (String × Service)) (k : String) (v : Service) :
    mapGet (mapSet m k v) k = some v := by
  induction m with
  | nil => simp [mapSet, mapGet]
  | cons kv rest ih =>
    obtain ⟨k1, v1⟩ := kv
    by_cases h : k1 = k
    · simp [mapSet, mapGet, h]
    · simp [mapSet, mapGet, h, ih]

theorem mapGet_mapSet_other (m : List (String × Service)) (k k2 : String) (v : Service)
    (hne : k2 ≠ k) : mapGet (mapSet m k v) k2 = mapGet m k2 := by
  have hne2 : ¬ k = k2 := fun h => hne h.symm
  induction m with
  | nil => simp [mapSet, mapGet, hne2]
  | cons kv rest ih =>
    obtain ⟨k1, v1⟩ := kv
    by_cases h : k1 = k
    · subst h
      simp [mapSet, mapGet, hne2]
    · by_cases h2 : k1 = k2
      · subst h2
        simp [mapSet, mapGet, h]
      · simp [mapSet, mapGet, h, h2, ih]

theorem mem_mapSet (m : List (String × Service)) (k : String) (v : Service)
    (kv : String × Service) (h : kv ∈ mapSet m k v) : kv = (k, v) ∨ kv ∈ m := by
  induction m with
  | nil => simp [mapSet] at h; exact Or.inl h
  | cons a rest ih =>
    obtain ⟨k1, v1⟩ := a
    by_cases hk : k1 = k
    · simp only [mapSet, hk, if_true, List.mem_cons] at h
      rcases h with h | h
      · exact Or.inl h
      · exact Or.inr (List.mem_cons_of_mem _ h)
    · simp only [mapSet, hk, if_false, List.mem_cons] at h
      rcases h with h | h
      · exact Or.inr (by simp [h])
      · rcases ih h with h | h
        · exact Or.inl h
        · exact Or.inr (List.mem_cons_of_mem _ h)

theorem keys_mapSet (m : List (String × Service)) (k : String) (v : Service) :
    (mapSet m k v).map Prod.fst =
      if k ∈ m.map Prod.fst then m.map Prod.fst else m.map Prod.fst ++ [k] := by
  induction m with
  | nil => simp [mapSet]
  | cons a rest ih =>
    obtain ⟨k1, v1⟩ := a
    by_cases hk : k1 = k
    · simp [mapSet, hk]
    · have hk2 : ¬ k = k1 := fun e => hk e.symm
      simp only [mapSet, hk, if_false, List.map_cons, ih, List.mem_cons, hk2, false_or]
      split <;> simp

theorem CacheOk_mapSet (m : List (String × Service)) (k : String) (v : Service)
    (hm : CacheOk m) (hv : v.ID = k) : CacheOk (mapSet m k v) := by
  constructor
  · rw [keys_mapSet]
    split
    · exact hm.1
    · rename_i hk
      exact List.Nodup.append hm.1 (List.nodup_singleton k) (by
        intro a ha hb
        simp at hb
        exact hk (hb ▸ ha))
  · intro kv hkv
    rcases mem_mapSet m k v kv hkv with h | h
    · simp [h, hv]
    · exact hm.2 kv h

theorem mapGet_of_mem (m : List (String × Service)) (hm : (m.map Prod.fst).Nodup)
    (kv : String × Service) (h : kv ∈ m) : mapGet m kv.1 = some kv.2 := by
  induction m with
  | nil => simp at h
  | cons a rest ih =>
    obtain ⟨k1, v1⟩ := a
    simp only [List.map_cons, List.nodup_cons] at hm
    simp only [List.mem_cons] at h
    rcases h with h | h
    · simp [h, mapGet]
    · have hne : ¬ k1 = kv.1 := by
        intro e
        exact hm.1 (e ▸ List.mem_map_of_mem Prod.fst h)
      simp [mapGet, hne, ih hm.2 h]

theorem mem_of_mapGet (m : List (String × Service)) (k : String) (c : Service)
    (h : mapGet m k = some c) : (k, c) ∈ m := by
  induction m with
  | nil => simp [mapGet] at h
  | cons a rest ih =>
    obtain ⟨k1, v1⟩ := a
    by_cases hk : k1 = k
    · simp [mapGet, hk] at h
      simp [hk, h]
    · simp [mapGet, hk] at h
      exact List.mem_cons_of_mem _ (ih h)


theorem gt_tdiv_two_iff (l t : Int) (ht : 0 ≤ t) : l > Int.tdiv t 2 ↔ t < 2 * l := by
  rw [Int.tdiv_eq_ediv ht (by decide)]
  omega

theorem check_current (m : Monitor) (target : ServiceConfig) (p : ProbeOutcome) :
    mapGet (m.check target p).current target.ID =
      some { cachedOrNew m target with
               Status := srvStatusOf (heartbeatOf target p),
               Latency := ((Duration.Milliseconds p.latency : Int) : Rat) } := by
  simp only [Monitor.check]
  exact mapGet_mapSet_same _ _ _

/-- C1: for a target with a non-negative timeout, the event `check` appends
is classified down exactly when the probe returned an error, degraded exactly
when it succeeded and twice the latency exceeds the timeout, up otherwise; the
status cached by `check` is then outage, degraded, operational respectively;
and a successful probe records the empty error description. -/
theorem check_classifies_probe (m : Monitor) (target : ServiceConfig) (p : ProbeOutcome)
    (hT : 0 ≤ target.Timeout) :
    (m.check target p).store.checks
        = m.store.checks ++ [rowOf m.store.checks.length (checkResultOf target p)] ∧
    ((checkResultOf target p).Status = HeartbeatDown ↔ p.err ≠ none) ∧
    ((checkResultOf target p).Status = HeartbeatDegraded
        ↔ p.err = none ∧ target.Timeout < 2 * p.latency) ∧
    ((checkResultOf target p).Status = HeartbeatUp
        ↔ p.err = none ∧ ¬ target.Timeout < 2 * p.latency) ∧
    (∃ c, mapGet (m.check target p).current target.ID = some c ∧
      (p.err ≠ none → c.Status = StatusOutage) ∧
      (p.err = none → target.Timeout < 2 * p.latency → c.Status = StatusDegraded) ∧
      (p.err = none → ¬ target.Timeout < 2 * p.latency → c.Status = StatusOperational)) ∧
    (p.err = none → (checkResultOf target p).Error = "") := by
  have key := gt_tdiv_two_iff p.latency target.Timeout hT
  refine ⟨by simp [Monitor.check, Store.AddCheck], ?_, ?_, ?_, ?_, ?_⟩
  · by_cases he : p.err = none
    · by_cases hl : p.latency > Int.tdiv target.Timeout 2 <;>
        simp [checkResultOf, heartbeatOf, he, hl, HeartbeatDown, HeartbeatDegraded, HeartbeatUp]
    · simp [checkResultOf, heartbeatOf, he]
  · by_cases he : p.err = none
    · by_cases hl : p.latency > Int.tdiv target.Timeout 2
      · simp [checkResultOf, heartbeatOf, he, hl, key.mp hl]
      · have : ¬ target.Timeout < 2 * p.latency := fun h => hl (key.mpr h)
        simp [checkResultOf, heartbeatOf, he, hl, this, HeartbeatDegraded, HeartbeatUp]
    · simp [checkResultOf, heartbeatOf, he, HeartbeatDown, HeartbeatDegraded]
  · by_cases he : p.err = none
    · by_cases hl : p.latency > Int.tdiv target.Timeout 2
      · simp [checkResultOf, heartbeatOf, he, hl, key.mp hl, HeartbeatDegraded, HeartbeatUp]
      · have : ¬ target.Timeout < 2 * p.latency := fun h => hl (key.mpr h)
        simp [checkResultOf, heartbeatOf, he, hl, this]
    · simp [checkResultOf, heartbeatOf, he, HeartbeatDown, HeartbeatUp]
  · refine ⟨_, check_current m target p, ?_, ?_, ?_⟩
    · intro he
      simp [heartbeatOf, he, srvStatusOf]
    · intro he hl
      have hl2 := key.mpr hl
      simp [heartbeatOf, he, hl2, srvStatusOf, HeartbeatDown, HeartbeatDegraded]
    · intro he hl
      have hl2 : ¬ p.latency > Int.tdiv target.Timeout 2 := fun h => hl (key.mp h)
      simp [heartbeatOf, he, hl2, srvStatusOf, HeartbeatDown, HeartbeatDegraded, HeartbeatUp]
  · intro he
    simp [checkResultOf, he]

theorem check_classifies_probe_witness :
    (0 : Int) ≤ 1000000000 ∧
    ((checkResultOf ⟨"db", "Database", "db:5432", 1000000000, 1000000000, "TCP"⟩
        ⟨⟨0⟩, none, 600000000⟩).Status = HeartbeatDegraded
      ↔ (none : Option String) = none ∧ (1000000000 : Int) < 2 * 600000000) :=
  ⟨by decide,
   (check_classifies_probe (NewMonitor ⟨[], ⟨false, ""⟩⟩ ⟨[]⟩)
      ⟨"db", "Database", "db:5432", 1000000000, 1000000000, "TCP"⟩
      ⟨⟨0⟩, none, 600000000⟩ (by decide)).2.2.1⟩


/-! ## The status cache along a run -/

theorem cachedOrNew_ID (m : Monitor) (target : ServiceConfig) (hm : CacheOk m.current) :
    (cachedOrNew m target).ID = target.ID := by
  unfold cachedOrNew
  cases h : mapGet m.current target.ID with
  | none => rfl
  | some c => exact hm.2 _ (mem_of_mapGet _ _ _ h)

theorem CacheOk_check (m : Monitor) (target : ServiceConfig) (p : ProbeOutcome)
    (hm : CacheOk m.current) : CacheOk (m.check target p).current := by
  simp only [Monitor.check]
  exact CacheOk_mapSet _ _ _ hm (cachedOrNew_ID m target hm)

theorem CacheOk_run (steps : List (ServiceConfig × ProbeOutcome)) (m : Monitor)
    (hm : CacheOk m.current) : CacheOk (m.run steps).current := by
  induction steps generalizing m with
  | nil => exact hm
  | cons s rest ih => exact ih _ (CacheOk_check m s.1 s.2 hm)

theorem CacheOk_NewMonitor (cfg : Config) (store : Store) :
    CacheOk (NewMonitor cfg store).current := by
  simp only [NewMonitor]
  have gen : ∀ (ts : List ServiceConfig) (cur : List (String × Service)), CacheOk cur →
      CacheOk (ts.foldl (fun cur t => mapSet cur t.ID
        { ID := t.ID, Name := t.Name, Uptime := "", Status := StatusOperational,
          Latency := 0, Heartbeats := [] }) cur) := by
    intro ts
    induction ts with
    | nil => intro cur h; exact h
    | cons t rest ih =>
      intro cur h
      exact ih _ (CacheOk_mapSet _ _ _ h rfl)
  exact gen _ _ ⟨by simp, by simp⟩

theorem run_append (m : Monitor) (xs ys : List (ServiceConfig × ProbeOutcome)) :
    m.run (xs ++ ys) = (m.run xs).run ys := by
  simp [Monitor.run, List.foldl_append]

theorem run_cons (m : Monitor) (x : ServiceConfig × ProbeOutcome)
    (ys : List (ServiceConfig × ProbeOutcome)) :
    m.run (x :: ys) = (m.check x.1 x.2).run ys := rfl

theorem check_current_other (m : Monitor) (target : ServiceConfig) (p : ProbeOutcome)
    (k : String) (hk : k ≠ target.ID) :
    mapGet (m.check target p).current k = mapGet m.current k := by
  simp only [Monitor.check]
  exact mapGet_mapSet_other _ _ _ _ hk

theorem run_current_other (steps : List (ServiceConfig × ProbeOutcome)) (m : Monitor)
    (k : String) (hk : ∀ s ∈ steps, s.1.ID ≠ k) :
    mapGet (m.run steps).current k = mapGet m.current k := by
  induction steps generalizing m with
  | nil => rfl
  | cons s rest ih =>
    rw [run_cons, ih _ (fun s2 h2 => hk s2 (List.mem_cons_of_mem _ h2))]
    exact check_current_other m s.1 s.2 k (fun e => hk s (List.mem_cons_self _ _) e.symm)

theorem mapGet_NewMonitor (cfg : Config) (store : Store) (t : ServiceConfig)
    (ht : t ∈ cfg.Targets) :
    ∃ c, mapGet (NewMonitor cfg store).current t.ID = some c ∧ c.Status = StatusOperational := by
  simp only [NewMonitor]
  have gen : ∀ (ts : List ServiceConfig) (cur : List (String × Service)),
      (t ∈ ts ∨ ∃ c, mapGet cur t.ID = some c ∧ c.Status = StatusOperational) →
      ∃ c, mapGet (ts.foldl (fun cur t => mapSet cur t.ID
        { ID := t.ID, Name := t.Name, Uptime := "", Status := StatusOperational,
          Latency := 0, Heartbeats := [] }) cur) t.ID = some c ∧
        c.Status = StatusOperational := by
    intro ts
    induction ts with
    | nil =>
      intro cur h
      rcases h with h | h
      · simp at h
      · exact h
    | cons u rest ih =>
      intro cur h
      apply ih
      by_cases hu : u.ID = t.ID
      · right
        show ∃ c, mapGet (mapSet cur u.ID _) t.ID = some c ∧ c.Status = StatusOperational
        rw [← hu]
        exact ⟨_, mapGet_mapSet_same _ _ _, rfl⟩
      · rcases h with h | h
        · rcases List.mem_cons.mp h with h | h
          · exact absurd (h ▸ rfl) hu
          · exact Or.inl h
        · right
          show ∃ c, mapGet (mapSet cur u.ID _) t.ID = some c ∧ c.Status = StatusOperational
          rw [mapGet_mapSet_other _ _ _ _ (fun e => hu e.symm)]
          exact h
  exact gen _ _ (Or.inl ht)

theorem checks_notified (t : ServiceConfig) (ps : List ProbeOutcome) (m : Monitor)
    (c : Service) (hc : mapGet m.current t.ID = some c) :
    (m.checks t ps).notified = m.notified ++ transitions t c.Status ps := by
  induction ps generalizing m c with
  | nil => simp [Monitor.checks, transitions]
  | cons p rest ih =>
    have hstep : m.checks t (p :: rest) = (m.check t p).checks t rest := rfl
    rw [hstep, ih (m.check t p) _ (check_current m t p)]
    simp only [Monitor.check, cachedOrNew, hc, transitions, tickStatus]
    split <;> simp

/-- C3 (amended): in a run of checks of a configured target from start-up,
`check` invokes the notifier for exactly the checks whose coarse status
differs from the status cached before them (operational before the first),
passing the target name, address, old status, new status and that latency;
three failing ticks from start-up fire the single notification operational to
outage; three ticks with statuses outage, operational, outage, the first of
which finds outage cached, fire exactly the two notifications (outage,
operational) and (operational, outage); the same three ticks as the first
ticks after start-up fire three, the first being (operational, outage). -/
theorem notifier_fires_on_status_change (cfg : Config) (store : Store) (t : ServiceConfig)
    (ht : t ∈ cfg.Targets) :
    (∀ ps : List ProbeOutcome,
      ((NewMonitor cfg store).checks t ps).notified = transitions t StatusOperational ps) ∧
    (∀ p1 p2 p3 : ProbeOutcome, p1.err ≠ none → p2.err ≠ none → p3.err ≠ none →
      ((NewMonitor cfg store).checks t [p1, p2, p3]).notified =
        [⟨t.Name, t.URL, StatusOperational, StatusOutage, p1.latency⟩]) ∧
    (∀ (pre : List ProbeOutcome) (p0 p1 p2 p3 : ProbeOutcome),
      tickStatus t p0 = StatusOutage → tickStatus t p1 = StatusOutage →
      tickStatus t p2 = StatusOperational → tickStatus t p3 = StatusOutage →
      ((NewMonitor cfg store).checks t (pre ++ [p0] ++ [p1, p2, p3])).notified =
        ((NewMonitor cfg store).checks t (pre ++ [p0])).notified ++
          [⟨t.Name, t.URL, StatusOutage, StatusOperational, p2.latency⟩,
           ⟨t.Name, t.URL, StatusOperational, StatusOutage, p3.latency⟩]) ∧
    (∀ p1 p2 p3 : ProbeOutcome,
      tickStatus t p1 = StatusOutage → tickStatus t p2 = StatusOperational →
      tickStatus t p3 = StatusOutage →
      ((NewMonitor cfg store).checks t [p1, p2, p3]).notified =
        [⟨t.Name, t.URL, StatusOperational, StatusOutage, p1.latency⟩,
         ⟨t.Name, t.URL, StatusOutage, StatusOperational, p2.latency⟩,
         ⟨t.Name, t.URL, StatusOperational, StatusOutage, p3.latency⟩]) := by
  obtain ⟨c, hc, hop⟩ := mapGet_NewMonitor cfg store t ht
  have hall : ∀ ps : List ProbeOutcome,
      ((NewMonitor cfg store).checks t ps).notified = transitions t StatusOperational ps := by
    intro ps
    rw [checks_notified t ps _ c hc, hop]
    simp [NewMonitor]
  have hfail : ∀ p : ProbeOutcome, p.err ≠ none → tickStatus t p = StatusOutage := by
    intro p hp
    simp [tickStatus, heartbeatOf, hp, srvStatusOf]
  refine ⟨hall, ?_, ?_, ?_⟩
  · intro p1 p2 p3 h1 h2 h3
    rw [hall]
    simp [transitions, hfail p1 h1, hfail p2 h2, hfail p3 h3, StatusOperational, StatusOutage]
  · intro pre p0 p1 p2 p3 h0 h1 h2 h3
    have hsplit : ∀ (xs ys : List ProbeOutcome) (m : Monitor),
        m.checks t (xs ++ ys) = (m.checks t xs).checks t ys := by
      intro xs ys m
      simp [Monitor.checks, List.foldl_append]
    have hlast : ∀ (xs : List ProbeOutcome) (m : Monitor),
        mapGet (m.checks t (xs ++ [p0])).current t.ID =
          some { cachedOrNew (m.checks t xs) t with
                   Status := tickStatus t p0,
                   Latency := ((Duration.Milliseconds p0.latency : Int) : Rat) } := by
      intro xs m
      rw [hsplit]
      exact check_current _ t p0
    rw [hsplit, checks_notified t [p1, p2, p3] _ _ (hlast pre _)]
    simp [transitions, h0, h1, h2, h3, StatusOperational, StatusOutage]
  · intro p1 p2 p3 h1 h2 h3
    rw [hall]
    simp [transitions, h1, h2, h3, StatusOperational, StatusOutage]

theorem notifier_fires_on_status_change_witness :
    (⟨"db", "Database", "db:5432", 1000000000, 1000000000, "TCP"⟩ : ServiceConfig)
      ∈ [(⟨"db", "Database", "db:5432", 1000000000, 1000000000, "TCP"⟩ : ServiceConfig)] ∧
    ((NewMonitor ⟨[⟨"db", "Database", "db:5432", 1000000000, 1000000000, "TCP"⟩],
        ⟨false, ""⟩⟩ ⟨[]⟩).checks
        ⟨"db", "Database", "db:5432", 1000000000, 1000000000, "TCP"⟩
        [⟨⟨0⟩, some "refused", 4⟩, ⟨⟨1⟩, some "refused", 5⟩, ⟨⟨2⟩, some "refused", 6⟩]).notified
      = [⟨"Database", "db:5432", StatusOperational, StatusOutage, 4⟩] :=
  ⟨by decide,
   (notifier_fires_on_status_change
      ⟨[⟨"db", "Database", "db:5432", 1000000000, 1000000000, "TCP"⟩], ⟨false, ""⟩⟩ ⟨[]⟩
      ⟨"db", "Database", "db:5432", 1000000000, 1000000000, "TCP"⟩ (by decide)).2.1
      ⟨⟨0⟩, some "refused", 4⟩ ⟨⟨1⟩, some "refused", 5⟩ ⟨⟨2⟩, some "refused", 6⟩
      (by decide) (by decide) (by decide)⟩

/-- C3 (counterexample): from start-up, three ticks whose statuses are
outage, operational, outage fire three notifications, not two: the first tick
itself leaves operational. -/
theorem three_flips_from_startup_notify_thrice :
    [tickStatus ⟨"db", "Database", "db:5432", 1000000000, 1000000000, "TCP"⟩
        ⟨⟨0⟩, some "refused", 4⟩,
     tickStatus ⟨"db", "Database", "db:5432", 1000000000, 1000000000, "TCP"⟩
        ⟨⟨1⟩, none, 5⟩,
     tickStatus ⟨"db", "Database", "db:5432", 1000000000, 1000000000, "TCP"⟩
        ⟨⟨2⟩, some "refused", 6⟩] = [StatusOutage, StatusOperational, StatusOutage] ∧
    ((NewMonitor ⟨[⟨"db", "Database", "db:5432", 1000000000, 1000000000, "TCP"⟩],
        ⟨false, ""⟩⟩ ⟨[]⟩).checks
        ⟨"db", "Database", "db:5432", 1000000000, 1000000000, "TCP"⟩
        [⟨⟨0⟩, some "refused", 4⟩, ⟨⟨1⟩, none, 5⟩, ⟨⟨2⟩, some "refused", 6⟩]).notified
      = [⟨"Database", "db:5432", StatusOperational, StatusOutage, 4⟩,
         ⟨"Database", "db:5432", StatusOutage, StatusOperational, 5⟩,
         ⟨"Database", "db:5432", StatusOperational, StatusOutage, 6⟩] := by
  decide
/-! ## The event log -/

theorem foldl_AddCheck_checks (events : List CheckResult) (s : Store) :
    (events.foldl (fun s e => (s.AddCheck e).1) s).checks
      = s.checks ++ rowsFrom s.checks.length events := by
  induction events generalizing s with
  | nil => simp [rowsFrom]
  | cons e es ih =>
    rw [List.foldl_cons, ih]
    simp [Store.AddCheck, rowsFrom]

theorem ofEvents_checks (events : List CheckResult) :
    (Store.ofEvents events).checks = rowsFrom 0 events := by
  simp [Store.ofEvents, foldl_AddCheck_checks]

theorem rowsFrom_filter_map {β : Type} (q : Row → Bool) (f : Row → β)
    (hq : ∀ n e, q (rowOf n e) = q (rowOf 0 e)) (hf : ∀ n e, f (rowOf n e) = f (rowOf 0 e))
    (n : Nat) (es : List CheckResult) :
    ((rowsFrom n es).filter q).map f
      = (es.filter (fun e => q (rowOf 0 e))).map (fun e => f (rowOf 0 e)) := by
  induction es generalizing n with
  | nil => simp [rowsFrom]
  | cons e rest ih =>
    simp only [rowsFrom, List.filter_cons, hq n e]
    split <;> simp [ih, hf n e]

theorem rowsFrom_countP (q : Row → Bool) (hq : ∀ n e, q (rowOf n e) = q (rowOf 0 e))
    (n : Nat) (es : List CheckResult) :
    (rowsFrom n es).countP q = es.countP (fun e => q (rowOf 0 e)) := by
  have h := congrArg List.length (rowsFrom_filter_map q (fun _ => ()) hq (fun _ _ => rfl) n es)
  simpa [List.countP_eq_length_filter] using h

theorem rowsSince_length (events : List CheckResult) (target : String) (since : Time) :
    (rowsSince (Store.ofEvents events) target since).length
      = events.countP (fun e => atOrAfterSec target since e) := by
  rw [rowsSince, ofEvents_checks, ← List.countP_eq_length_filter,
    rowsFrom_countP (fun r => decide (r.service_id = target ∧ since.Unix ≤ r.timestamp))
      (fun _ _ => rfl)]
  simp [rowOf, atOrAfterSec]

theorem rowsSince_countP_up (events : List CheckResult) (target : String) (since : Time) :
    (rowsSince (Store.ofEvents events) target since).countP (fun r => r.status ≠ 2)
      = events.countP (fun e => atOrAfterSec target since e ∧ e.Status ≠ HeartbeatDown) := by
  rw [rowsSince, ofEvents_checks, List.countP_filter,
    rowsFrom_countP (fun r => decide (r.status ≠ 2) &&
      decide (r.service_id = target ∧ since.Unix ≤ r.timestamp)) (fun _ _ => rfl)]
  apply List.countP_congr
  intro e _
  simp [rowOf, atOrAfterSec, HeartbeatDown, and_comm]

theorem countP_up_add_down (events : List CheckResult) (target : String) (since : Time) :
    events.countP (fun e => atOrAfterSec target since e ∧ e.Status ≠ HeartbeatDown)
      + events.countP (fun e => atOrAfterSec target since e ∧ e.Status = HeartbeatDown)
      = events.countP (fun e => atOrAfterSec target since e) := by
  induction events with
  | nil => simp
  | cons e rest ih =>
    rw [List.countP_cons, List.countP_cons, List.countP_cons, ← ih]
    by_cases h1 : atOrAfterSec target since e <;> by_cases h2 : e.Status = HeartbeatDown <;>
      simp [h1, h2] <;> omega

theorem sqlLimit_sublist {α : Type} (n : Int) (l : List α) : (sqlLimit n l).Sublist l := by
  unfold sqlLimit
  split
  · exact List.Sublist.refl l
  · exact List.take_sublist _ _

theorem sqlLimit_all {α : Type} (n : Int) (l : List α) (h : n < 0 ∨ (l.length : Int) ≤ n) :
    sqlLimit n l = l := by
  unfold sqlLimit
  split
  · rfl
  · apply List.take_of_length_le
    omega

theorem sqlLimit_length {α : Type} (n : Int) (l : List α) (h : 0 ≤ n) :
    ((sqlLimit n l).length : Int) = min n (l.length : Int) := by
  unfold sqlLimit
  have : ¬ n < 0 := by omega
  simp only [this, if_false, List.length_take]
  omega

theorem Unix_Unix (ts : Int) : (Unix ts 0).Unix = ts := by
  simp only [Unix, Time.Unix]
  omega

theorem recentRows_pairwise (s : Store) (target : String) (limit : Int) :
    (recentRows s target limit).Pairwise recentFirst :=
  List.Pairwise.sublist (sqlLimit_sublist _ _) (List.sorted_insertionSort recentFirst _)

theorem recentRows_mem (s : Store) (target : String) (limit : Int) (r : Row)
    (h : r ∈ recentRows s target limit) : r ∈ s.checks ∧ r.service_id = target := by
  have h1 := (sqlLimit_sublist _ _).subset h
  have h2 := (List.perm_insertionSort recentFirst _).subset h1
  simpa using h2

theorem recentRows_all (s : Store) (target : String) (limit : Int)
    (h : limit < 0 ∨ ((s.checks.countP (fun r => r.service_id = target) : Nat) : Int) ≤ limit) :
    (recentRows s target limit).Perm (s.checks.filter (fun r => r.service_id = target)) := by
  unfold recentRows
  rw [sqlLimit_all]
  · exact List.perm_insertionSort recentFirst _
  · rw [List.length_insertionSort, ← List.countP_eq_length_filter]
    exact h

/-- C8: the events `GetRecentChecks` returns are in chronological order, the
timestamps never decreasing from the first to the last, and each of them is
the scan of a stored row of the requested target and carries its identifier. -/
theorem recent_is_chronological (s : Store) (target : String) (limit : Int) :
    (s.GetRecentChecks target limit).1.Pairwise
      (fun a b => a.Timestamp.unixNano ≤ b.Timestamp.unixNano) ∧
    (∀ c ∈ (s.GetRecentChecks target limit).1,
      c.ServiceID = target ∧
      ∃ r ∈ s.checks, r.service_id = target ∧ c = scanRow target r) ∧
    (s.GetRecentChecks target limit).2 = none := by
  refine ⟨?_, ?_, rfl⟩
  · simp only [Store.GetRecentChecks, List.pairwise_reverse, List.pairwise_map]
    refine List.Pairwise.imp ?_ (recentRows_pairwise s target limit)
    intro a b hab
    simp only [scanRow, Unix]
    unfold recentFirst at hab
    omega
  · intro c hc
    simp only [Store.GetRecentChecks, List.mem_reverse, List.mem_map] at hc
    obtain ⟨r, hr, rfl⟩ := hc
    have := recentRows_mem s target limit r hr
    exact ⟨rfl, r, this.1, this.2, rfl⟩

theorem recentRows_split (s : Store) (target : String) (limit : Int) (h : 0 ≤ limit) :
    ∃ rest : List Row,
      (recentRows s target limit ++ rest).Perm
        (s.checks.filter (fun r => r.service_id = target)) ∧
      ∀ a ∈ recentRows s target limit, ∀ b ∈ rest, b.timestamp ≤ a.timestamp := by
  have hneg : ¬ limit < 0 := by omega
  refine ⟨(List.insertionSort recentFirst
    (s.checks.filter (fun r => r.service_id = target))).drop limit.toNat, ?_, ?_⟩
  · simp only [recentRows, sqlLimit, hneg, if_false, List.take_append_drop]
    exact List.perm_insertionSort recentFirst _
  · have hs := List.sorted_insertionSort recentFirst
      (s.checks.filter (fun r => r.service_id = target))
    rw [← List.take_append_drop limit.toNat (List.insertionSort recentFirst
      (s.checks.filter (fun r => r.service_id = target)))] at hs
    have hp := (List.pairwise_append.mp hs).2.2
    intro a ha b hb
    simp only [recentRows, sqlLimit, hneg, if_false] at ha
    have := hp a ha b hb
    unfold recentFirst at this
    omega

/-- C7 (amended): for a limit that is not negative, `GetRecentChecks` never
returns more than `limit` events; when the target has at most `limit` events
it returns all of them, and otherwise exactly `limit` of them, none older than
an event left out. A negative limit places no bound: all events of the target
are returned. -/
theorem recent_respects_nonnegative_limit (s : Store) (target : String) (limit : Int) :
    (0 ≤ limit → ((s.GetRecentChecks target limit).1.length : Int) ≤ limit) ∧
    ((limit < 0 ∨ ((s.checks.countP (fun r => r.service_id = target) : Nat) : Int) ≤ limit) →
      (s.GetRecentChecks target limit).1.Perm
        ((s.checks.filter (fun r => r.service_id = target)).map (scanRow target))) ∧
    (0 ≤ limit → limit ≤ ((s.checks.countP (fun r => r.service_id = target) : Nat) : Int) →
      ((s.GetRecentChecks target limit).1.length : Int) = limit ∧
      ∃ rest : List Row,
        ((s.GetRecentChecks target limit).1 ++ rest.map (scanRow target)).Perm
          ((s.checks.filter (fun r => r.service_id = target)).map (scanRow target)) ∧
        ∀ c ∈ (s.GetRecentChecks target limit).1, ∀ r ∈ rest,
          r.timestamp ≤ c.Timestamp.Unix) := by
  have hlen : 0 ≤ limit → ((s.GetRecentChecks target limit).1.length : Int)
      = min limit ((s.checks.countP (fun r => r.service_id = target) : Nat) : Int) := by
    intro h
    simp only [Store.GetRecentChecks, List.length_reverse, List.length_map, recentRows]
    rw [sqlLimit_length _ _ h, List.length_insertionSort, ← List.countP_eq_length_filter]
  refine ⟨?_, ?_, ?_⟩
  · intro h
    rw [hlen h]
    exact min_le_left _ _
  · intro h
    simp only [Store.GetRecentChecks]
    exact (List.reverse_perm _).trans ((recentRows_all s target limit h).map _)
  · intro h0 hle
    refine ⟨by rw [hlen h0]; exact min_eq_left hle, ?_⟩
    obtain ⟨rest, hperm, hold⟩ := recentRows_split s target limit h0
    refine ⟨rest, ?_, ?_⟩
    · simp only [Store.GetRecentChecks]
      have h1 : (((recentRows s target limit).map (scanRow target)).reverse
          ++ rest.map (scanRow target)).Perm
          ((recentRows s target limit ++ rest).map (scanRow target)) := by
        rw [List.map_append]
        exact List.Perm.append_right _ (List.reverse_perm _)
      exact h1.trans (hperm.map _)
    · intro c hc r hr
      simp only [Store.GetRecentChecks, List.mem_reverse, List.mem_map] at hc
      obtain ⟨a, ha, rfl⟩ := hc
      simp only [scanRow, Unix_Unix]
      exact hold a ha r hr

theorem recent_respects_nonnegative_limit_witness :
    (0 : Int) ≤ 1 ∧
    (((Store.ofEvents
        [⟨"api", ⟨10000000000⟩, 1000000, 0, ""⟩,
         ⟨"api", ⟨11000000000⟩, 1000000, 0, ""⟩]).GetRecentChecks "api" 1).1.length : Int)
      ≤ 1 :=
  ⟨by decide,
   (recent_respects_nonnegative_limit
      (Store.ofEvents
        [⟨"api", ⟨10000000000⟩, 1000000, 0, ""⟩,
         ⟨"api", ⟨11000000000⟩, 1000000, 0, ""⟩]) "api" 1).1 (by decide)⟩

/-- C7 (counterexample): with the limit -1 and two stored events of the
target, `GetRecentChecks` returns both events, more than `limit`. -/
theorem recent_ignores_negative_limit :
    ((Store.ofEvents
        [⟨"api", ⟨10000000000⟩, 1000000, 0, ""⟩,
         ⟨"api", ⟨11000000000⟩, 2000000, 2, "refused"⟩]).GetRecentChecks "api" (-1)).1
      = [⟨"api", ⟨10000000000⟩, 1000000, 0, ""⟩,
         ⟨"api", ⟨11000000000⟩, 2000000, 2, "refused"⟩] ∧
    ¬ ((((Store.ofEvents
        [⟨"api", ⟨10000000000⟩, 1000000, 0, ""⟩,
         ⟨"api", ⟨11000000000⟩, 2000000, 2, "refused"⟩]).GetRecentChecks "api" (-1)).1.length
        : Int) ≤ -1) := by
  decide

/-- C6 (amended): after `AddCheck E`, which reports no error,
`GetRecentChecks E.ServiceID limit` with `limit` at least the number of stored
events of that target contains a value equal to `E` in `ServiceID`, `Latency`,
`Status` and `Error` whose `Timestamp` is that of `E` cut to whole Unix
seconds; it is `E` itself when the timestamp of `E` is a whole second. -/
theorem recent_returns_appended_event (s : Store) (E : CheckResult) (limit : Int)
    (hlim : (((s.AddCheck E).1.checks.countP
      (fun r => r.service_id = E.ServiceID) : Nat) : Int) ≤ limit) :
    (s.AddCheck E).2 = none ∧
    { E with Timestamp := Unix E.Timestamp.Unix 0 }
      ∈ ((s.AddCheck E).1.GetRecentChecks E.ServiceID limit).1 ∧
    (E.Timestamp = Unix E.Timestamp.Unix 0 →
      E ∈ ((s.AddCheck E).1.GetRecentChecks E.ServiceID limit).1) := by
  have hmem : { E with Timestamp := Unix E.Timestamp.Unix 0 }
      ∈ ((s.AddCheck E).1.GetRecentChecks E.ServiceID limit).1 := by
    have hperm := recentRows_all (s.AddCheck E).1 E.ServiceID limit (Or.inr hlim)
    simp only [Store.GetRecentChecks, List.mem_reverse, List.mem_map]
    refine ⟨rowOf s.checks.length E, hperm.symm.subset ?_, ?_⟩
    · simp [Store.AddCheck, rowOf]
    · simp [scanRow, rowOf, Duration.Nanoseconds]
  refine ⟨rfl, hmem, ?_⟩
  intro hts
  have hE : { E with Timestamp := Unix E.Timestamp.Unix 0 } = E := by
    cases E
    simp only [CheckResult.mk.injEq, true_and, and_true] at hts ⊢
    exact hts.symm
  have hgen : ∀ x : CheckResult, x = E →
      x ∈ ((s.AddCheck E).1.GetRecentChecks E.ServiceID limit).1 →
      E ∈ ((s.AddCheck E).1.GetRecentChecks E.ServiceID limit).1 := by
    intro x hx hin
    subst hx
    exact hin
  exact hgen _ hE hmem

theorem recent_returns_appended_event_witness :
    ((((Store.mk []).AddCheck ⟨"api", ⟨10500000000⟩, 1000000, 0, ""⟩).1.checks.countP
      (fun r => r.service_id = "api") : Nat) : Int) ≤ 1 ∧
    ({ ServiceID := "api", Timestamp := Unix 10 0, Latency := 1000000, Status := 0,
       Error := "" } : CheckResult)
      ∈ (((Store.mk []).AddCheck ⟨"api", ⟨10500000000⟩, 1000000, 0, ""⟩).1.GetRecentChecks
          "api" 1).1 :=
  ⟨by decide,
   (recent_returns_appended_event (Store.mk []) ⟨"api", ⟨10500000000⟩, 1000000, 0, ""⟩ 1
      (by decide)).2.1⟩

/-- C6 (counterexample): an event stamped 10.5 s is appended to an empty
store and read back with limit 1: the one value returned is stamped 10 s, so
no returned value equals the event in every field. -/
theorem recent_loses_subsecond_timestamp :
    (((Store.mk []).AddCheck ⟨"api", ⟨10500000000⟩, 1000000, 0, ""⟩).1.GetRecentChecks
        "api" 1).1 = [⟨"api", ⟨10000000000⟩, 1000000, 0, ""⟩] ∧
    (⟨"api", ⟨10500000000⟩, 1000000, 0, ""⟩ : CheckResult)
      ∉ (((Store.mk []).AddCheck ⟨"api", ⟨10500000000⟩, 1000000, 0, ""⟩).1.GetRecentChecks
          "api" 1).1 := by
  decide

/-! ## Configuration defaults -/

theorem setDefaults_spec (t : ServiceConfig) :
    (t.Interval = 0 → (setDefaults t).Interval = 30 * Second) ∧
    (t.Interval ≠ 0 → (setDefaults t).Interval = t.Interval) ∧
    (t.Timeout = 0 → (setDefaults t).Timeout = 5 * Second) ∧
    (t.Timeout ≠ 0 → (setDefaults t).Timeout = t.Timeout) := by
  unfold setDefaults
  by_cases h1 : t.Interval = 0 <;> by_cases h2 : t.Timeout = 0 <;>
    by_cases h3 : t.Method = "" <;> simp [h1, h2, h3]

/-- C9 (amended): the defaulting step of `LoadConfig` keeps the targets in
place, turns a zero `Interval` into 30 s and a zero `Timeout` into 5 s, and
leaves every other value unchanged; so afterwards no `Interval` or `Timeout`
is zero, both are positive for a target decoded with non-negative values, and
a negative value stays negative. -/
theorem defaults_fill_zero_durations (decoded : Config) :
    List.Forall₂
      (fun t u : ServiceConfig =>
        (t.Interval = 0 → u.Interval = 30 * Second) ∧
        (t.Interval ≠ 0 → u.Interval = t.Interval) ∧
        (t.Timeout = 0 → u.Timeout = 5 * Second) ∧
        (t.Timeout ≠ 0 → u.Timeout = t.Timeout) ∧
        u.Interval ≠ 0 ∧ u.Timeout ≠ 0 ∧
        (0 ≤ t.Interval → 0 < u.Interval) ∧ (0 ≤ t.Timeout → 0 < u.Timeout) ∧
        (t.Interval < 0 → u.Interval < 0) ∧ (t.Timeout < 0 → u.Timeout < 0))
      decoded.Targets (LoadConfig decoded).Targets := by
  simp only [LoadConfig, List.forall₂_map_right_iff, List.forall₂_same]
  intro t _
  obtain ⟨h1, h2, h3, h4⟩ := setDefaults_spec t
  refine ⟨h1, h2, h3, h4, ?_, ?_, ?_, ?_, ?_, ?_⟩
  · by_cases h : t.Interval = 0
    · rw [h1 h]; decide
    · rw [h2 h]; exact h
  · by_cases h : t.Timeout = 0
    · rw [h3 h]; decide
    · rw [h4 h]; exact h
  · intro h0
    by_cases h : t.Interval = 0
    · rw [h1 h]; decide
    · rw [h2 h]; exact lt_of_le_of_ne h0 (Ne.symm h)
  · intro h0
    by_cases h : t.Timeout = 0
    · rw [h3 h]; decide
    · rw [h4 h]; exact lt_of_le_of_ne h0 (Ne.symm h)
  · intro h0
    rw [h2 (ne_of_lt h0)]; exact h0
  · intro h0
    rw [h4 (ne_of_lt h0)]; exact h0

theorem defaults_fill_zero_durations_witness :
    List.Forall₂
      (fun t u : ServiceConfig =>
        (t.Interval = 0 → u.Interval = 30 * Second) ∧
        (t.Interval ≠ 0 → u.Interval = t.Interval) ∧
        (t.Timeout = 0 → u.Timeout = 5 * Second) ∧
        (t.Timeout ≠ 0 → u.Timeout = t.Timeout) ∧
        u.Interval ≠ 0 ∧ u.Timeout ≠ 0 ∧
        (0 ≤ t.Interval → 0 < u.Interval) ∧ (0 ≤ t.Timeout → 0 < u.Timeout) ∧
        (t.Interval < 0 → u.Interval < 0) ∧ (t.Timeout < 0 → u.Timeout < 0))
      [⟨"db", "Database", "db:5432", 0, 2000000000, ""⟩]
      (LoadConfig ⟨[⟨"db", "Database", "db:5432", 0, 2000000000, ""⟩], ⟨false, ""⟩⟩).Targets :=
  defaults_fill_zero_durations ⟨[⟨"db", "Database", "db:5432", 0, 2000000000, ""⟩], ⟨false, ""⟩⟩

/-- C9 (counterexample): a target decoded with the interval -1 s and the
timeout -2 s keeps both through the defaulting step, so neither is positive
afterwards. -/
theorem defaults_keep_negative_durations :
    (LoadConfig ⟨[⟨"db", "Database", "db:5432", -1000000000, -2000000000, "TCP"⟩],
        ⟨false, ""⟩⟩).Targets
      = [⟨"db", "Database", "db:5432", -1000000000, -2000000000, "TCP"⟩] ∧
    ¬ (∀ t ∈ (LoadConfig ⟨[⟨"db", "Database", "db:5432", -1000000000, -2000000000, "TCP"⟩],
        ⟨false, ""⟩⟩).Targets, 0 < t.Interval ∧ 0 < t.Timeout) := by
  decide

theorem sum_map_div (xs : List Int) (c : Rat) :
    (xs.map (fun (x : Int) => (x : Rat) / c)).sum = ((xs.sum : Int) : Rat) / c := by
  induction xs with
  | nil => simp
  | cons x rest ih =>
    simp only [List.map_cons, List.sum_cons, ih]
    push_cast
    ring

theorem latencies_ofEvents (events : List CheckResult) (target : String) (since : Time) :
    ((rowsSince (Store.ofEvents events) target since).filter (fun r => r.status ≠ 2)).map
        (fun r => r.latency_ns)
      = (events.filter (fun e => atOrAfterSec target since e ∧ e.Status ≠ HeartbeatDown)).map
        (fun e => e.Latency) := by
  rw [rowsSince, ofEvents_checks, List.filter_filter,
    rowsFrom_filter_map (fun r => decide (r.status ≠ 2) &&
      decide (r.service_id = target ∧ since.Unix ≤ r.timestamp)) (fun r => r.latency_ns)
      (fun _ _ => rfl) (fun _ _ => rfl)]
  congr 1
  apply List.filter_congr
  intro e _
  simp [rowOf, atOrAfterSec, HeartbeatDown, and_comm]

end Uptime
